import Mathlib

set_option autoImplicit false

/-!
# Verification of the pastemd paste/document persistence layer

Shallow embedding of the core of the `hkauso/pastemd` repository
(`src/database.rs`, `src/model.rs`) together with proofs of the frozen
claims about its specification.

Strings are modelled as lists of Unicode scalar values (`List Nat`),
matching Rust's `str::chars` view.  Stateful database code is modelled by
explicit state passing; a result of `none` models a Rust panic
(`unwrap` on `None` / a missing column), `some (r, s)` models a normal
return of `r` with post-state `s`.
-/

namespace Pastemd

/-- Character codes of a string, the `List Nat` view of a Rust `&str`. -/
def strCodes (s : String) : List Nat := s.toList.map (fun c => c.toNat)

/-- `str::to_lowercase` restricted to ASCII input.  The only call sites in
`database.rs` lower-case the output of `idna::punycode::encode_str`, which is
always ASCII (proved below as `punycodeEncode_ascii`), where Rust's Unicode
lowercasing coincides with the ASCII mapping. -/
def toLowerAscii (l : List Nat) : List Nat :=
  l.map (fun c => if 65 ≤ c ∧ c ≤ 90 then c + 32 else c)

/-- `if url.ends_with("-") { url.pop(); }` — strip one trailing `-` (45). -/
def stripTrailingDash (l : List Nat) : List Nat :=
  if l.getLast? = some 45 then l.dropLast else l

/-- Rust `str::len()`: the UTF-8 byte length of a string of scalar values. -/
def utf8Len (l : List Nat) : Nat :=
  (l.map (fun c =>
    if c ≤ 0x7F then 1 else if c ≤ 0x7FF then 2 else if c ≤ 0xFFFF then 3 else 4)).sum

/-- Decimal rendering of a number (for `u128::to_string`). -/
def natToStr (n : Nat) : List Nat := (Nat.toDigits 10 n).map (fun c => c.toNat)

/-- `str::parse::<u128>()`, as an `Option`: digits-only, non-empty. -/
def parseNat (l : List Nat) : Option Nat :=
  if l ≠ [] ∧ ∀ c ∈ l, 48 ≤ c ∧ c ≤ 57 then
    some (l.foldl (fun a c => a * 10 + (c - 48)) 0)
  else none

/-- Rust's `usize as i32` cast: truncate to the low 32 bits and reinterpret
them as a signed 32-bit value. -/
def asI32 (n : Nat) : Int :=
  (((n % 4294967296) + 2147483648 : Int) % 4294967296) - 2147483648

/-! ## Punycode (RFC 3492) encoding, as implemented by `idna::punycode::encode_str`

Mirrors the `encode_into` function of the `idna` crate: basic (ASCII) code
points are copied, a `-` delimiter is appended when any exist, and the
remaining code points are encoded by the delta loop.  Arithmetic is on `Nat`
with the source's explicit `u32` overflow guards (`U32MAX`).  The outer
`while processed < input_length` loop is driven by fuel `input_length + 1`;
the source's loop handles at least one code point per iteration, so the fuel
never runs out on inputs the source terminates on, and `none` additionally
models the source's `.min().unwrap()` panic (unreachable) and `Err(())`
overflow results. -/

def U32MAX : Nat := 4294967295

/-- `value_to_digit`: 0..25 ↦ a..z, 26..35 ↦ 0..9. -/
def pcDigit (v : Nat) : Nat := if v < 26 then 97 + v else 22 + v

/-- The threshold `t` clamped to `[T_MIN, T_MAX] = [1, 26]`. -/
def pcT (bias k : Nat) : Nat :=
  if k ≤ bias then 1 else if bias + 26 ≤ k then 26 else k - bias

/-- The generalized variable-length integer emission loop for one delta. -/
def pcVarint (bias : Nat) (q k : Nat) : List Nat :=
  if q < pcT bias k then [pcDigit q]
  else
    pcDigit (pcT bias k + (q - pcT bias k) % (36 - pcT bias k)) ::
      pcVarint bias ((q - pcT bias k) / (36 - pcT bias k)) (k + 36)
termination_by q
decreasing_by
  have hT : 1 ≤ pcT bias k ∧ pcT bias k ≤ 26 := by
    unfold pcT
    split
    · omega
    · split
      · omega
      · omega
  have h4 : (q - pcT bias k) / (36 - pcT bias k) ≤ q - pcT bias k :=
    Nat.div_le_self _ _
  omega

/-- The `while delta > 455 { delta /= 35; k += 36 }` loop of `adapt`. -/
def pcAdaptLoop (delta k : Nat) : Nat × Nat :=
  if 455 < delta then pcAdaptLoop (delta / 35) (k + 36) else (delta, k)
termination_by delta
decreasing_by
  exact Nat.div_lt_self (by omega) (by omega)

/-- The bias adaptation function `adapt` of RFC 3492. -/
def pcAdapt (delta numPoints : Nat) (firstTime : Bool) : Nat :=
  let d1 := delta / (if firstTime then 700 else 2)
  let d2 := d1 + d1 / numPoints
  let p := pcAdaptLoop d2 0
  p.2 + 36 * p.1 / (p.1 + 38)

/-- State threaded through the encoder's inner and outer loops. -/
structure PcState where
  out : List Nat
  delta : Nat
  bias : Nat
  processed : Nat
deriving DecidableEq

/-- One pass of `for c in input` handling the code point `codePoint`. -/
def pcInner (codePoint basicLen : Nat) : List Nat → PcState → Option PcState
  | [], st => some st
  | c :: rest, st =>
    let st1 : Option PcState :=
      if c < codePoint then
        if st.delta + 1 ≤ U32MAX then some { st with delta := st.delta + 1 }
        else none
      else some st
    match st1 with
    | none => none
    | some st1 =>
      let st2 : PcState :=
        if c = codePoint then
          { out := st1.out ++ pcVarint st1.bias st1.delta 36
            delta := 0
            bias := pcAdapt st1.delta (st1.processed + 1)
              (decide (st1.processed = basicLen))
            processed := st1.processed + 1 }
        else st1
      pcInner codePoint basicLen rest st2

/-- Smallest element of a list of numbers. -/
def listMin : List Nat → Option Nat
  | [] => none
  | c :: rest =>
    some (match listMin rest with
          | none => c
          | some m => Nat.min c m)

/-- The `while processed < input_length` loop, driven by fuel. -/
def pcOuter (input : List Nat) (inputLen basicLen : Nat) :
    Nat → Nat → PcState → Option (List Nat)
  | 0, _, st => if st.processed < inputLen then none else some st.out
  | fuel + 1, codePoint, st =>
    if st.processed < inputLen then
      match listMin (input.filter (fun c => codePoint ≤ c)) with
      | none => none
      | some m =>
        if (U32MAX - st.delta) / (st.processed + 1) < m - codePoint then none
        else
          match pcInner m basicLen input
              { st with delta := st.delta + (m - codePoint) * (st.processed + 1) } with
          | none => none
          | some st' =>
            pcOuter input inputLen basicLen fuel (m + 1)
              { st' with delta := st'.delta + 1 }
    else some st.out

/-- `idna::punycode::encode_str`, on lists of scalar values. -/
def punycodeEncode (input : List Nat) : Option (List Nat) :=
  if U32MAX < input.length then none
  else
    let basic := input.filter (fun c => c ≤ 127)
    let basicLen := basic.length
    let out0 := basic ++ (if 0 < basicLen then [45] else [])
    pcOuter input input.length basicLen (input.length + 1) 128
      { out := out0, delta := 0, bias := 72, processed := basicLen }

/-- The slug normalization applied on every paste path:
`idna::punycode::encode_str(&url).unwrap().to_lowercase()` followed by
popping one trailing `-`; `none` models the `unwrap` panic. -/
def normalizeUrl (l : List Nat) : Option (List Nat) :=
  (punycodeEncode l).map (fun e => stripTrailingDash (toLowerAscii e))

/-- The normalization applied to `new_url` inside `edit_paste_by_url`
(no `to_lowercase` there, unlike every other site). -/
def normalizeNewUrl (l : List Nat) : Option (List Nat) :=
  (punycodeEncode l).map (fun e => stripTrailingDash e)

/-! ## Data model (`src/model.rs` as consumed by `src/database.rs`) -/

/-- Modelled from the spec: the `PasteMetadata` record used by
`database.rs` (its defining module version is not in the sources) — "at
minimum an `owner` field, optionally a `view_password` field" (§3), both
strings as read by the routing layer. -/
structure PasteMetadata where
  owner : List Nat
  view_password : List Nat
deriving DecidableEq

/-- Modelled from the spec: `PasteMetadata::default()` — a paste created
anonymously has an empty owner and no view password. -/
def PasteMetadata.default : PasteMetadata := { owner := [], view_password := [] }

/-- A stored paste row (`se_pastes` column set = the `Paste` struct fields). -/
structure Paste where
  id : List Nat
  url : List Nat
  content : List Nat
  password : List Nat
  date_published : Nat
  date_edited : Nat
  metadata : PasteMetadata
deriving DecidableEq

/-- Modelled from the spec: the engine's error kinds (§7).  The
four-variant `PasteError` of the in-tree `src/model.rs` (an earlier
revision without `ValueError`) is embedded separately as
`OldModel.PasteError` for the HTTP-layer claim. -/
inductive PasteError
  | PasswordIncorrect
  | AlreadyExists
  | ValueError
  | NotFound
  | Other
deriving DecidableEq

/-- A durable `(url, username)` view record (`se_views` row). -/
structure ViewRow where
  url : List Nat
  username : List Nat
deriving DecidableEq

/-- A stored document row (`se_documents`); the generic `content`/`metadata`
payloads are modelled by their serialized strings.  `nspace` stands for the
source's `namespace` field (a Lean keyword). -/
structure DocRow where
  id : List Nat
  nspace : List Nat
  content : List Nat
  timestamp : Nat
  metadata : List Nat
deriving DecidableEq

/-- A cached value: the serialized forms a cache entry can hold.  The
engine serializes a `Paste` (`se_paste:` keys), a decimal counter
(`se_views:` keys) or a `Document` (`se_document:` keys); deserializing a
value at the wrong type models as a panic at the use sites. -/
inductive CacheVal
  | pasteV (p : Paste)
  | countV (n : Nat)
  | docV (d : DocRow)
deriving DecidableEq

/-- `dorsal`'s view-count mode (`ViewMode` in `database.rs`). -/
inductive ViewMode
  | AuthenticatedOnce
  | OpenMultiple
deriving DecidableEq

/-- `ServerOptions` from `database.rs`. -/
structure ServerOptions where
  view_password : Bool
  guppy : Bool
  paste_ownership : Bool
  document_store : Bool
  view_mode : ViewMode
deriving DecidableEq

/-- The requester identity (`FullUser<UserMetadata>`): the engine reads only
`ua.user.username` and `ua.level.permissions`. -/
structure UserInfo where
  username : List Nat
deriving DecidableEq

structure UserLevel where
  permissions : List (List Nat)
deriving DecidableEq

structure FullUser where
  user : UserInfo
  level : UserLevel
deriving DecidableEq

/-- The shared mutable state: the durable store's three tables and the cache. -/
structure State where
  pastes : List Paste
  views : List ViewRow
  docs : List DocRow
  cache : List (List Nat × CacheVal)
deriving DecidableEq

/-! ## Cache layer (dorsal `cachedb`) -/

abbrev Cache := List (List Nat × CacheVal)

/-- Modelled from the spec: `get(key) -> Option<string>` (§4.4). -/
def cacheGet (cache : Cache) (k : List Nat) : Option CacheVal :=
  (cache.find? (fun e => decide (e.1 = k))).map Prod.snd

/-- Modelled from the spec: `set(key, value)` overwrites the key (§4.4). -/
def cacheSet (cache : Cache) (k : List Nat) (v : CacheVal) : Cache :=
  (k, v) :: cache.filter (fun e => decide (e.1 ≠ k))

/-- Modelled from the spec: `remove(key)` (§4.4). -/
def cacheRemove (cache : Cache) (k : List Nat) : Cache :=
  cache.filter (fun e => decide (e.1 ≠ k))

/-- Modelled from the spec: `increment(key) -> previous-existed: bool`
(§4.4): a missing key is created at 1 (reporting `false`), an existing
numeric key is incremented (reporting `true`); the counter "only ever
increases" (§4.6). -/
def cacheIncr (cache : Cache) (k : List Nat) : Cache × Bool :=
  match cacheGet cache k with
  | none => (cacheSet cache k (.countV 1), false)
  | some (.countV n) => (cacheSet cache k (.countV (n + 1)), true)
  | some _ => (cache, true)

/-- Key `se_paste:{url}`. -/
def sePasteKey (url : List Nat) : List Nat := strCodes "se_paste:" ++ url

/-- Key `se_views:{url}`. -/
def seViewsKey (url : List Nat) : List Nat := strCodes "se_views:" ++ url

/-- The key `pull` *checks*: `se_document:{id}` (`database.rs` line 665). -/
def seDocLookupKey (id : List Nat) : List Nat := strCodes "se_document:" ++ id

/-- The key the document operations *write/remove*:
`se_document:{namespace}:{id}` (`database.rs` lines 704, 806, 861, 919). -/
def seDocStoreKey (ns id : List Nat) : List Nat :=
  strCodes "se_document:" ++ ns ++ strCodes ":" ++ id

/-! ## Validator pieces used by `create_paste` -/

/-- Modelled from the spec: the character class
`[\w\_\-\.\!\p{Extended_Pictographic}]` of the slug regex — `\w` is taken in
its ASCII part (every claim input is ASCII) plus representative pictographic
ranges for `\p{Extended_Pictographic}`. -/
def slugChar (c : Nat) : Bool :=
  decide ((48 ≤ c ∧ c ≤ 57) ∨ (65 ≤ c ∧ c ≤ 90) ∨ (97 ≤ c ∧ c ≤ 122) ∨
    c = 95 ∨ c = 45 ∨ c = 46 ∨ c = 33 ∨
    (0x2600 ≤ c ∧ c ≤ 0x27BF) ∨ (0x1F000 ≤ c ∧ c ≤ 0x1FAFF))

/-- The slug check of `create_paste`: the regex is built with
`multi_line(true)`, so `^`/`$` anchor at line boundaries and
`regex.captures(url)` finds a match iff *some* line consists entirely of
allowed characters (a `+` match cannot be empty);
`captures(..).iter().len() < 1` rejects exactly when no line matches. -/
def slugRegexOk (url : List Nat) : Bool :=
  (url.splitOn 10).any (fun line => !line.isEmpty && line.all slugChar)

/-! ## Paste engine (`src/database.rs`)

External effects are passed in as oracle arguments: `hash` is dorsal's
deterministic `utility::hash` (§4.3: `verify` is `hash(plaintext) == opaque`),
`rid*` are the successive outputs of `utility::random_id` (one per call
site), and `now*` the outputs of `utility::unix_epoch_timestamp`. -/

/-- `get_paste_by_url`: normalize, check the cache (`se_paste:{url}`), fall
back to the store (`SELECT .. WHERE url = ?`, bound lower-cased), populate
the cache on a store hit.  The row is stored typed, so the source's
`parse::<u128>().unwrap()` and metadata deserialization always succeed;
a cached value of the wrong shape models the `from_str::<Paste>` panic. -/
def get_paste_by_url (S : State) (url : List Nat) :
    Option (Except PasteError Paste × State) :=
  match normalizeUrl url with
  | none => none
  | some url =>
    match cacheGet S.cache (sePasteKey url) with
    | some (.pasteV p) => some (.ok p, S)
    | some _ => none
    | none =>
      match S.pastes.find? (fun r => decide (r.url = toLowerAscii url)) with
      | none => some (.error .NotFound, S)
      | some r =>
        some (.ok r, { S with cache := cacheSet S.cache (sePasteKey url) (.pasteV r) })

/-- `create_paste`: normalize, reject if the slug already resolves, fill in
a random url/password when empty (first 10 chars of a fresh `random_id`),
validate lengths (`str::len()` = UTF-8 bytes) and the slug regex, hash the
password, insert, and return the *plaintext* password next to the new row. -/
def create_paste (hash : List Nat → List Nat) (S : State)
    (url content pw : List Nat) (ridUrl ridPw ridId : List Nat) (now1 now2 : Nat) :
    Option (Except PasteError (List Nat × Paste) × State) :=
  match normalizeUrl url with
  | none => none
  | some url0 =>
    match get_paste_by_url S url0 with
    | none => none
    | some (.ok _, S') => some (.error .AlreadyExists, S')
    | some (.error _, S') =>
      let url1 := if url0 = [] then ridUrl.take 10 else url0
      let pw1 := if pw = [] then ridPw.take 10 else pw
      if 250 < utf8Len url1 ∨ utf8Len url1 < 3 then some (.error .ValueError, S')
      else if 200000 < utf8Len content ∨ utf8Len content < 1 then
        some (.error .ValueError, S')
      else if ¬ slugRegexOk url1 then some (.error .ValueError, S')
      else
        let paste : Paste :=
          { id := ridId, url := url1, content := content, password := hash pw1,
            date_published := now1, date_edited := now2,
            metadata := PasteMetadata.default }
        some (.ok (pw1, paste), { S' with pastes := S'.pastes ++ [paste] })

/-- `delete_paste_by_url`: normalize, read (propagating errors), compare
`hash(password)` with the stored hash, then purge the view counter key, the
store row, the paste cache key, and (in `AuthenticatedOnce` mode) the
durable view rows. -/
def delete_paste_by_url (hash : List Nat → List Nat) (opts : ServerOptions)
    (S : State) (url pw : List Nat) : Option (Except PasteError Unit × State) :=
  match normalizeUrl url with
  | none => none
  | some url =>
    match get_paste_by_url S url with
    | none => none
    | some (.error e, S') => some (.error e, S')
    | some (.ok existing, S') =>
      if hash pw ≠ existing.password then some (.error .PasswordIncorrect, S')
      else
        let S1 := { S' with cache := cacheRemove S'.cache (seViewsKey url) }
        let S2 := { S1 with pastes := S1.pastes.filter (fun r => decide (r.url ≠ url)) }
        let S3 := { S2 with cache := cacheRemove S2.cache (sePasteKey url) }
        let S4 :=
          if opts.view_mode = ViewMode.AuthenticatedOnce then
            { S3 with views := S3.views.filter (fun v => decide (v.url ≠ url)) }
          else S3
        some (.ok (), S4)

/-- The authorization resolver inlined in both edit operations: bypass the
password check iff an identity is present and is the owner or holds the
`"ManagePastes"` permission. -/
def skipPasswordCheck (existing : Paste) (editing_as : Option FullUser) : Bool :=
  match editing_as with
  | some ua =>
    if ua.user.username = existing.metadata.owner then true
    else if strCodes "ManagePastes" ∈ ua.level.permissions then true
    else false
  | none => false

/-- `edit_paste_by_url`: normalize, read, authorization/password gate, keep
or hash the new password, keep or re-encode the new url (no lower-casing
here), update all four columns of the matching rows, and invalidate the old
cache key. -/
def edit_paste_by_url (hash : List Nat → List Nat) (S : State)
    (url pw newContent newUrl newPw : List Nat)
    (editing_as : Option FullUser) (now : Nat) :
    Option (Except PasteError Unit × State) :=
  match normalizeUrl url with
  | none => none
  | some url =>
    match get_paste_by_url S url with
    | none => none
    | some (.error e, S') => some (.error e, S')
    | some (.ok existing, S') =>
      if skipPasswordCheck existing editing_as = false ∧ hash pw ≠ existing.password then
        some (.error .PasswordIncorrect, S')
      else
        let newPw1 := if newPw ≠ [] then hash newPw else existing.password
        let newUrl1 := if newUrl = [] then existing.url else newUrl
        match normalizeNewUrl newUrl1 with
        | none => none
        | some newUrl2 =>
          let S1 :=
            { S' with
              pastes := S'.pastes.map (fun (r : Paste) =>
                if r.url = url then
                  { r with content := newContent, password := newPw1,
                           url := newUrl2, date_edited := now }
                else r) }
          some (.ok (), { S1 with cache := cacheRemove S1.cache (sePasteKey url) })

/-- `edit_paste_metadata_by_url`: same gate as `edit_paste_by_url`, updates
only the metadata column and invalidates the cache key. -/
def edit_paste_metadata_by_url (hash : List Nat → List Nat) (S : State)
    (url pw : List Nat) (metadata : PasteMetadata) (editing_as : Option FullUser) :
    Option (Except PasteError Unit × State) :=
  match normalizeUrl url with
  | none => none
  | some url =>
    match get_paste_by_url S url with
    | none => none
    | some (.error e, S') => some (.error e, S')
    | some (.ok existing, S') =>
      if skipPasswordCheck existing editing_as = false ∧ hash pw ≠ existing.password then
        some (.error .PasswordIncorrect, S')
      else
        let S1 :=
          { S' with
            pastes := S'.pastes.map (fun (r : Paste) =>
              if r.url = url then { r with metadata := metadata } else r) }
        some (.ok (), { S1 with cache := cacheRemove S1.cache (sePasteKey url) })

/-! ## View counter -/

/-- `get_views_by_url`: cache counter first; on a miss in
`AuthenticatedOnce` mode count the durable `se_views` rows, repopulate the
cache with the full count (`views.to_string()` of the `usize`) and return
it through the `views as i32` cast; otherwise 0.  A non-numeric cached
value, or a cached counter above `i32::MAX = 2147483647`, models the
`c.parse::<i32>().unwrap()` panic. -/
def get_views_by_url (opts : ServerOptions) (S : State) (url : List Nat) :
    Option (Int × State) :=
  match normalizeUrl url with
  | none => none
  | some url =>
    match cacheGet S.cache (seViewsKey url) with
    | some (.countV n) =>
      if n ≤ 2147483647 then some ((n : Int), S) else none
    | some _ => none
    | none =>
      if opts.view_mode = ViewMode.AuthenticatedOnce then
        let n := (S.views.filter (fun v => decide (v.url = url))).length
        some (asI32 n, { S with cache := cacheSet S.cache (seViewsKey url) (.countV n) })
      else some (0, S)

/-- `user_has_viewed_paste`: in `AuthenticatedOnce` mode, whether a durable
`(url, username)` row exists; `false` otherwise. -/
def user_has_viewed_paste (opts : ServerOptions) (S : State)
    (url username : List Nat) : Bool :=
  if opts.view_mode = ViewMode.AuthenticatedOnce then
    (S.views.find? (fun v => decide (v.url = url ∧ v.username = username))).isSome
  else false

/-- The trailing cache increment of `incr_views_by_url`:
`match cachedb.incr(..) { false => Ok(()), true => Err(Other) }` — the
increment itself has already taken effect either way. -/
def incrViewsCacheStep (S : State) (url : List Nat) :
    Option (Except PasteError Unit × State) :=
  let p := cacheIncr S.cache (seViewsKey url)
  if p.2 = false then some (.ok (), { S with cache := p.1 })
  else some (.error .Other, { S with cache := p.1 })

/-- `incr_views_by_url`: in `AuthenticatedOnce` mode an anonymous view is
silently dropped, an already-counted identity is a no-op, and a first-time
identity gets a durable `se_views` row inserted before the common cache
increment; in `OpenMultiple` mode only the cache counter is touched. -/
def incr_views_by_url (opts : ServerOptions) (S : State) (url : List Nat)
    (as_user : Option FullUser) : Option (Except PasteError Unit × State) :=
  match normalizeUrl url with
  | none => none
  | some url =>
    if opts.view_mode = ViewMode.AuthenticatedOnce then
      match as_user with
      | some ua =>
        if user_has_viewed_paste opts S url ua.user.username then some (.ok (), S)
        else
          incrViewsCacheStep
            { S with views := S.views ++ [{ url := url, username := ua.user.username }] }
            url
      | none => some (.ok (), S)
    else incrViewsCacheStep S url

/-! ## Document store -/

/-- The string-keyed row map `textify_row` produces for an `se_documents`
row: exactly the table's columns.  `pull` asks this map for a
`date_published` column, which does not exist. -/
def docRowGet (r : DocRow) (col : String) : Option (List Nat) :=
  if col = "id" then some r.id
  else if col = "namespace" then some r.nspace
  else if col = "content" then some r.content
  else if col = "timestamp" then some (natToStr r.timestamp)
  else if col = "metadata" then some r.metadata
  else none

/-- `pull`: gate on `document_store`, check the cache under
`se_document:{id}`, fall back to the store; on a store hit the source reads
the row's `date_published` column (absent from `se_documents`, so the
`.unwrap()` panics) and would then populate the cache under the *different*
key `se_document:{namespace}:{id}`. -/
def pull (opts : ServerOptions) (S : State) (id ns : List Nat) :
    Option (Except PasteError DocRow × State) :=
  if opts.document_store = false then some (.error .Other, S)
  else
    match cacheGet S.cache (seDocLookupKey id) with
    | some (.docV d) => some (.ok d, S)
    | some _ => none
    | none =>
      match S.docs.find? (fun r => decide (r.id = id ∧ r.nspace = ns)) with
      | none => some (.error .NotFound, S)
      | some r =>
        match docRowGet r "date_published" with
        | none => none
        | some ts =>
          match parseNat ts with
          | none => none
          | some t =>
            match docRowGet r "id", docRowGet r "namespace",
                docRowGet r "content", docRowGet r "metadata" with
            | some i, some n2, some c2, some m2 =>
              let doc : DocRow :=
                { id := i, nspace := n2, content := c2, timestamp := t, metadata := m2 }
              some (.ok doc,
                { S with cache := cacheSet S.cache (seDocStoreKey ns id) (.docV doc) })
            | _, _, _, _ => none

/-- `push`: gate on `document_store`, then insert a fresh row (uniqueness is
the caller's responsibility); nothing is cached. -/
def push (opts : ServerOptions) (S : State) (ns content metadata : List Nat)
    (rid : List Nat) (now : Nat) : Option (Except PasteError DocRow × State) :=
  if opts.document_store = false then some (.error .Other, S)
  else
    let doc : DocRow :=
      { id := rid, nspace := ns, content := content, timestamp := now,
        metadata := metadata }
    some (.ok doc, { S with docs := S.docs ++ [doc] })

/-- `drop`: gate on `document_store`, `pull` to check existence, delete the
row and remove the `se_document:{namespace}:{id}` cache key. -/
def drop (opts : ServerOptions) (S : State) (id ns : List Nat) :
    Option (Except PasteError Unit × State) :=
  if opts.document_store = false then some (.error .Other, S)
  else
    match pull opts S id ns with
    | none => none
    | some (.error e, S') => some (.error e, S')
    | some (.ok _, S') =>
      let S1 :=
        { S' with docs := S'.docs.filter (fun r => decide (¬ (r.id = id ∧ r.nspace = ns))) }
      some (.ok (), { S1 with cache := cacheRemove S1.cache (seDocStoreKey ns id) })

/-- `update`: gate on `document_store`, `pull` to check existence; the
UPDATE statement targets the `se_pastes` table with a `namespace` column
that table does not have, so the driver reports an error and the function
returns `Other` without touching any row. -/
def update (opts : ServerOptions) (S : State) (id ns newContent : List Nat) :
    Option (Except PasteError Unit × State) :=
  if opts.document_store = false then some (.error .Other, S)
  else
    match pull opts S id ns with
    | none => none
    | some (.error e, S') => some (.error e, S')
    | some (.ok _, S') =>
      let _ := newContent
      some (.error .Other, S')

/-- `update_metadata`: gate on `document_store`, `pull` to check existence;
the UPDATE statement filters `se_documents` by a `url` column that table
does not have, so the driver reports an error and the function returns
`Other` without touching any row. -/
def update_metadata (opts : ServerOptions) (S : State) (id ns metadata : List Nat) :
    Option (Except PasteError Unit × State) :=
  if opts.document_store = false then some (.error .Other, S)
  else
    match pull opts S id ns with
    | none => none
    | some (.error e, S') => some (.error e, S')
    | some (.ok _, S') =>
      let _ := metadata
      some (.error .Other, S')

/-! ## Iteration helper and concrete instances used in the statements -/

/-- `N` sequential `incr_views_by_url` calls, threading the state and
ignoring the per-call results. -/
def iterIncr (opts : ServerOptions) (url : List Nat) (usr : Option FullUser) :
    Nat → State → Option State
  | 0, S => some S
  | n + 1, S =>
    match incr_views_by_url opts S url usr with
    | none => none
    | some (_, S') => iterIncr opts url usr n S'

/-- The paste record `create_paste` builds and inserts. -/
def createdPaste (hash : List Nat → List Nat) (url content pw1 ridId : List Nat)
    (now1 now2 : Nat) : Paste :=
  { id := ridId, url := url, content := content, password := hash pw1,
    date_published := now1, date_edited := now2, metadata := PasteMetadata.default }

/-- A concrete deterministic hash instance: prefix with `h` (104).  Stands in
for dorsal's `utility::hash` in concrete evaluations; all that matters is
determinism (§4.3). -/
def wHash : List Nat → List Nat := fun l => 104 :: l

/-- The empty state (fresh tables, cold cache). -/
def wEmpty : State := { pastes := [], views := [], docs := [], cache := [] }

/-- Options with authenticated-once views, everything else off. -/
def optsAuth : ServerOptions :=
  { view_password := false, guppy := false, paste_ownership := false,
    document_store := false, view_mode := .AuthenticatedOnce }

/-- Options with open-multiple views, everything else off. -/
def optsOpen : ServerOptions :=
  { view_password := false, guppy := false, paste_ownership := false,
    document_store := false, view_mode := .OpenMultiple }

/-- Options with the document store enabled. -/
def optsDocs : ServerOptions :=
  { view_password := false, guppy := false, paste_ownership := false,
    document_store := true, view_mode := .OpenMultiple }

/-- A stored paste owned by `alice`, with password `secret`. -/
def wOwnerPaste : Paste :=
  { id := strCodes "id0", url := strCodes "abc", content := strCodes "hello",
    password := wHash (strCodes "secret"), date_published := 1, date_edited := 1,
    metadata := { owner := strCodes "alice", view_password := [] } }

/-- A state holding `wOwnerPaste` both in the store and in the cache. -/
def wStateCached : State :=
  { pastes := [wOwnerPaste], views := [], docs := [],
    cache := [(sePasteKey (strCodes "abc"), .pasteV wOwnerPaste)] }

/-- The identity `alice` with no permissions. -/
def wAlice : FullUser :=
  { user := { username := strCodes "alice" }, level := { permissions := [] } }

/-- The identity `bob` with no permissions. -/
def wBob : FullUser :=
  { user := { username := strCodes "bob" }, level := { permissions := [] } }

/-- The paste produced by the empty-password creation instance. -/
def c2paste : Paste :=
  createdPaste wHash (strCodes "abc") (strCodes "hello") (strCodes "r4nd0mPass")
    (strCodes "id1") 5 5

/-- The paste produced by the multi-line-slug creation instance. -/
def c8paste : Paste :=
  createdPaste wHash (strCodes "abc\n$$$") (strCodes "hello") (strCodes "pw")
    (strCodes "id1") 5 5

/-- A stored document row. -/
def c6doc : DocRow :=
  { id := strCodes "doc1", nspace := strCodes "ns1", content := strCodes "c",
    timestamp := 5, metadata := strCodes "m" }

/-- A state holding only `c6doc`, with a cold cache. -/
def c6state : State := { pastes := [], views := [], docs := [c6doc], cache := [] }

end Pastemd

/-! ## The in-tree `src/model.rs` HTTP error mapping -/

namespace OldModel

/-- The `PasteError` enum that is actually in `src/model.rs` (it has no
`ValueError` variant). -/
inductive PasteError
  | PasswordIncorrect
  | AlreadyExists
  | NotFound
  | Other
deriving DecidableEq

/-- `impl IntoResponse for PasteError` from `src/model.rs`: the status code
and message of the produced response
(`StatusCode::INTERNAL_SERVER_ERROR = 500`, `StatusCode::NOT_FOUND = 404`;
the `Other` arm is the source's `_` catch-all). -/
def PasteError.into_response : PasteError → Nat × String
  | .PasswordIncorrect => (500, "The given password is invalid.")
  | .AlreadyExists => (500, "A paste with this URL already exists.")
  | .NotFound => (404, "No paste with this URL has been found.")
  | .Other => (500, "An unspecified error occured with the paste manager")

end OldModel

/-! ## Properties of the normalizer -/

namespace Pastemd

theorem pcT_pos (bias k : Nat) : 1 ≤ pcT bias k := by
  unfold pcT; split
  · exact Nat.le_refl 1
  · split
    · omega
    · omega

theorem pcT_le (bias k : Nat) : pcT bias k ≤ 26 := by
  unfold pcT; split
  · omega
  · split
    · omega
    · omega

theorem pcDigit_le (v : Nat) (h : v ≤ 35) : pcDigit v ≤ 127 := by
  unfold pcDigit; split <;> omega

/-- Every digit the variable-length integer loop emits is ASCII. -/
theorem pcVarint_ascii (bias : Nat) : ∀ q k, ∀ x ∈ pcVarint bias q k, x ≤ 127 := by
  intro q
  induction q using Nat.strong_induction_on with
  | _ q ih =>
    intro k x hx
    rw [pcVarint] at hx
    split at hx
    · simp at hx
      subst hx
      rename_i hq
      have h2 := pcT_le bias k
      exact pcDigit_le _ (by omega)
    · rename_i hq
      have h1 := pcT_pos bias k
      have h2 := pcT_le bias k
      rcases List.mem_cons.mp hx with h | h
      · subst h
        apply pcDigit_le
        have : (q - pcT bias k) % (36 - pcT bias k) < 36 - pcT bias k :=
          Nat.mod_lt _ (by omega)
        omega
      · exact ih _ (by
          have h4 : (q - pcT bias k) / (36 - pcT bias k) ≤ q - pcT bias k :=
            Nat.div_le_self _ _
          omega) _ _ h

/-- The inner pass only appends ASCII digits to the output. -/
theorem pcInner_ascii (codePoint basicLen : Nat) :
    ∀ (input : List Nat) (st st' : PcState),
      pcInner codePoint basicLen input st = some st' →
      (∀ x ∈ st.out, x ≤ 127) → ∀ x ∈ st'.out, x ≤ 127 := by
  intro input
  induction input with
  | nil =>
    intro st st' h hst
    simp [pcInner] at h
    subst h; exact hst
  | cons c rest ih =>
    intro st st' h hst
    simp only [pcInner] at h
    split at h
    · exact absurd h (by simp)
    · rename_i st1 heq
      apply ih _ _ h
      have hst1 : ∀ x ∈ st1.out, x ≤ 127 := by
        split at heq
        · split at heq
          · injection heq with heq; subst heq; simpa using hst
          · exact absurd heq (by simp)
        · injection heq with heq; subst heq; exact hst
      split
      · rename_i hc
        intro x hx
        simp only [List.mem_append] at hx
        rcases hx with hx | hx
        · exact hst1 x hx
        · exact pcVarint_ascii _ _ _ x hx
      · exact hst1

/-- The outer loop only ever appends ASCII characters. -/
theorem pcOuter_ascii (input : List Nat) (inputLen basicLen : Nat) :
    ∀ (fuel codePoint : Nat) (st : PcState) (out : List Nat),
      pcOuter input inputLen basicLen fuel codePoint st = some out →
      (∀ x ∈ st.out, x ≤ 127) → ∀ x ∈ out, x ≤ 127 := by
  intro fuel
  induction fuel with
  | zero =>
    intro codePoint st out h hst
    simp only [pcOuter] at h
    split at h
    · exact absurd h (by simp)
    · injection h with h; subst h; exact hst
  | succ fuel ih =>
    intro codePoint st out h hst
    simp only [pcOuter] at h
    split at h
    · split at h
      · exact absurd h (by simp)
      · rename_i m hm
        split at h
        · exact absurd h (by simp)
        · split at h
          · exact absurd h (by simp)
          · rename_i st' hinner
            apply ih _ _ _ h
            have := pcInner_ascii _ _ _ _ _ hinner (by simpa using hst)
            simpa using this
    · injection h with h; subst h; exact hst

/-- Punycode output is pure ASCII (it consists of copied basic code points,
the `-` delimiter and base-36 digits). -/
theorem punycodeEncode_ascii (l out : List Nat) (h : punycodeEncode l = some out) :
    ∀ x ∈ out, x ≤ 127 := by
  unfold punycodeEncode at h
  split at h
  · exact absurd h (by simp)
  · apply pcOuter_ascii _ _ _ _ _ _ _ h
    intro x hx
    simp only [List.mem_append] at hx
    rcases hx with hx | hx
    · exact (by simpa using (List.mem_filter.mp hx).2)
    · split at hx <;> simp_all

/-- On an all-ASCII input every code point is basic, so the delta loop never
runs: the encoder copies the input and appends the `-` delimiter (when the
input is non-empty). -/
theorem punycodeEncode_of_ascii (l : List Nat) (h : ∀ c ∈ l, c ≤ 127)
    (hlen : l.length ≤ U32MAX) :
    punycodeEncode l = some (l ++ if 0 < l.length then [45] else []) := by
  unfold punycodeEncode
  have hf : l.filter (fun c => c ≤ 127) = l := by
    apply List.filter_eq_self.mpr
    intro a ha; simpa using h a ha
  rw [hf]
  split
  · omega
  · simp only [pcOuter]
    split
    · omega
    · rfl

theorem toLowerAscii_ascii (l : List Nat) (h : ∀ c ∈ l, c ≤ 127) :
    ∀ c ∈ toLowerAscii l, c ≤ 127 := by
  intro c hc
  simp only [toLowerAscii, List.mem_map] at hc
  obtain ⟨a, ha, rfl⟩ := hc
  have := h a ha
  split <;> omega

theorem toLowerAscii_idem (l : List Nat) :
    toLowerAscii (toLowerAscii l) = toLowerAscii l := by
  simp only [toLowerAscii, List.map_map]
  apply List.map_congr_left
  intro a _
  simp only [Function.comp_apply]
  split <;> rename_i h1
  · split <;> omega
  · rfl

theorem toLowerAscii_strip (l : List Nat) :
    toLowerAscii (stripTrailingDash l) = stripTrailingDash (toLowerAscii l) := by
  simp only [stripTrailingDash, toLowerAscii]
  rw [List.getLast?_map]
  cases hl : l.getLast? with
  | none => simp
  | some a =>
    simp only [Option.map_some']
    by_cases ha : a = 45
    · subst ha
      simp only [show ((if 65 ≤ 45 ∧ 45 ≤ 90 then 45 + 32 else 45) : Nat) = 45 by norm_num]
      simp [List.map_dropLast]
    · have h45 : (if 65 ≤ a ∧ a ≤ 90 then a + 32 else a) ≠ 45 := by
        split <;> omega
      rw [if_neg (by simpa using ha), if_neg (by simpa using h45)]

theorem stripTrailingDash_append45 (l : List Nat) :
    stripTrailingDash (l ++ [45]) = l := by
  simp [stripTrailingDash]

theorem stripTrailingDash_mem (l : List Nat) (c : Nat) (h : c ∈ stripTrailingDash l) :
    c ∈ l := by
  simp only [stripTrailingDash] at h
  split at h
  · exact (List.dropLast_sublist l).subset h
  · exact h

end Pastemd

namespace Pastemd

theorem cacheGet_set_self (c : Cache) (k : List Nat) (v : CacheVal) :
    cacheGet (cacheSet c k v) k = some v := by
  simp [cacheGet, cacheSet, List.find?_cons_of_pos]

/-- A successful read leaves the store tables untouched. -/
theorem get_paste_store_eq (S S' : State) (url : List Nat)
    (r : Except PasteError Paste)
    (h : get_paste_by_url S url = some (r, S')) :
    S'.pastes = S.pastes ∧ S'.views = S.views ∧ S'.docs = S.docs := by
  unfold get_paste_by_url at h
  split at h
  · exact absurd h (by simp)
  · split at h
    · injection h with h
      rw [Prod.mk.injEq] at h
      obtain ⟨h1, h2⟩ := h
      subst h2
      exact ⟨rfl, rfl, rfl⟩
    · exact absurd h (by simp)
    · split at h
      · injection h with h
        have h2 := congrArg Prod.snd h
        simp at h2
        subst h2
        exact ⟨rfl, rfl, rfl⟩
      · injection h with h
        have h2 := congrArg Prod.snd h
        simp at h2
        subst h2
        exact ⟨rfl, rfl, rfl⟩

/-- A read that returned `p` keeps returning `p` without further state
change: either it was a cache hit, or the cache has just been populated
under exactly the key that is checked. -/
theorem get_paste_repeat (S S' : State) (url : List Nat) (p : Paste)
    (h : get_paste_by_url S url = some (.ok p, S')) :
    get_paste_by_url S' url = some (.ok p, S') := by
  unfold get_paste_by_url at h ⊢
  cases hn : normalizeUrl url with
  | none => rw [hn] at h; exact absurd h (by simp)
  | some u =>
    rw [hn] at h
    simp only at h ⊢
    cases hc : cacheGet S.cache (sePasteKey u) with
    | some v =>
      rw [hc] at h
      cases v with
      | pasteV p0 =>
        simp only at h
        injection h with h
        have h1 := congrArg Prod.fst h
        have h2 := congrArg Prod.snd h
        simp at h1 h2
        subst h2
        rw [hc]
        simp [h1]
      | countV n => exact absurd h (by simp)
      | docV d => exact absurd h (by simp)
    | none =>
      rw [hc] at h
      simp only at h
      cases hf : S.pastes.find? (fun r => decide (r.url = toLowerAscii u)) with
      | none => rw [hf] at h; exact absurd h (by simp)
      | some r =>
        rw [hf] at h
        simp only at h
        injection h with h
        have h1 := congrArg Prod.fst h
        have h2 := congrArg Prod.snd h
        simp only at h1 h2
        have hp : p = r := by
          have := h1
          simp at this
          exact this.symm
        subst hp
        subst h2
        rw [show cacheGet (cacheSet S.cache (sePasteKey u) (.pasteV p)) (sePasteKey u)
              = some (.pasteV p) from cacheGet_set_self ..]

/-- C3: deleting with a wrong password fails with `PasswordIncorrect` and
leaves the paste stored and retrievable. -/
theorem claim_C3 (hash : List Nat → List Nat) (opts : ServerOptions) (S S' : State)
    (url w : List Nat) (p : Paste)
    (hn : normalizeUrl url = some url)
    (hget : get_paste_by_url S url = some (.ok p, S'))
    (hpw : hash w ≠ p.password) :
    delete_paste_by_url hash opts S url w = some (.error .PasswordIncorrect, S') ∧
    S'.pastes = S.pastes ∧
    get_paste_by_url S' url = some (.ok p, S') := by
  refine ⟨?_, (get_paste_store_eq _ _ _ _ hget).1, get_paste_repeat _ _ _ _ hget⟩
  unfold delete_paste_by_url
  rw [hn]
  simp only
  rw [hget]
  simp only
  rw [if_pos hpw]

end Pastemd

namespace Pastemd

/-- When the authorization resolver denies the bypass, `edit_paste_by_url`
returns `PasswordIncorrect` exactly when the supplied password hashes to
something else than the stored hash. -/
theorem edit_pw_iff (hash : List Nat → List Nat) (S S' : State)
    (url pw newContent newUrl newPw : List Nat) (p : Paste)
    (ea : Option FullUser) (now : Nat)
    (hn : normalizeUrl url = some url)
    (hget : get_paste_by_url S url = some (.ok p, S'))
    (hskip : skipPasswordCheck p ea = false) :
    (edit_paste_by_url hash S url pw newContent newUrl newPw ea now
        = some (.error .PasswordIncorrect, S')) ↔ hash pw ≠ p.password := by
  unfold edit_paste_by_url
  rw [hn]
  simp only
  rw [hget]
  simp only
  by_cases hpw : hash pw = p.password
  · rw [if_neg (by simp [hskip, hpw])]
    constructor
    · intro hcontra
      rcases hnu : normalizeNewUrl (if newUrl = [] then p.url else newUrl) with _ | v
      · rw [hnu] at hcontra; exact absurd hcontra (by simp)
      · rw [hnu] at hcontra
        simp only at hcontra
        injection hcontra with hcontra
        exact absurd (congrArg Prod.fst hcontra) (by simp)
    · intro hcontra; exact absurd hpw hcontra
  · rw [if_pos ⟨hskip, hpw⟩]
    simp [hpw]

/-- Same as `edit_pw_iff` for `edit_paste_metadata_by_url`. -/
theorem edit_metadata_pw_iff (hash : List Nat → List Nat) (S S' : State)
    (url pw : List Nat) (md : PasteMetadata) (p : Paste) (ea : Option FullUser)
    (hn : normalizeUrl url = some url)
    (hget : get_paste_by_url S url = some (.ok p, S'))
    (hskip : skipPasswordCheck p ea = false) :
    (edit_paste_metadata_by_url hash S url pw md ea
        = some (.error .PasswordIncorrect, S')) ↔ hash pw ≠ p.password := by
  unfold edit_paste_metadata_by_url
  rw [hn]
  simp only
  rw [hget]
  simp only
  by_cases hpw : hash pw = p.password
  · rw [if_neg (by simp [hskip, hpw])]
    constructor
    · intro hcontra
      injection hcontra with hcontra
      exact absurd (congrArg Prod.fst hcontra) (by simp)
    · intro hcontra; exact absurd hpw hcontra
  · rw [if_pos ⟨hskip, hpw⟩]
    simp [hpw]

/-- When the authorization resolver grants the bypass, the password hash
comparison is skipped and `PasswordIncorrect` cannot be returned. -/
theorem edit_skip_no_pw (hash : List Nat → List Nat) (S : State)
    (url pw newContent newUrl newPw : List Nat) (p : Paste) (S' : State)
    (ea : Option FullUser) (now : Nat)
    (hn : normalizeUrl url = some url)
    (hget : get_paste_by_url S url = some (.ok p, S'))
    (hskip : skipPasswordCheck p ea = true) :
    ∀ r T, edit_paste_by_url hash S url pw newContent newUrl newPw ea now
        = some (r, T) → r ≠ .error .PasswordIncorrect := by
  intro r T h
  unfold edit_paste_by_url at h
  rw [hn] at h
  simp only at h
  rw [hget] at h
  simp only at h
  rw [if_neg (by simp [hskip])] at h
  rcases hnu : normalizeNewUrl (if newUrl = [] then p.url else newUrl) with _ | v
  · rw [hnu] at h; exact absurd h (by simp)
  · rw [hnu] at h
    simp only at h
    injection h with h
    have := congrArg Prod.fst h
    simp only at this
    subst this
    simp

/-- Same as `edit_skip_no_pw` for `edit_paste_metadata_by_url`. -/
theorem edit_metadata_skip_no_pw (hash : List Nat → List Nat) (S : State)
    (url pw : List Nat) (md : PasteMetadata) (p : Paste) (S' : State)
    (ea : Option FullUser)
    (hn : normalizeUrl url = some url)
    (hget : get_paste_by_url S url = some (.ok p, S'))
    (hskip : skipPasswordCheck p ea = true) :
    ∀ r T, edit_paste_metadata_by_url hash S url pw md ea
        = some (r, T) → r ≠ .error .PasswordIncorrect := by
  intro r T h
  unfold edit_paste_metadata_by_url at h
  rw [hn] at h
  simp only at h
  rw [hget] at h
  simp only at h
  rw [if_neg (by simp [hskip])] at h
  injection h with h
  have := congrArg Prod.fst h
  simp only at this
  subst this
  simp

/-- The resolver grants the bypass iff an identity is present and is the
owner or holds `"ManagePastes"`. -/
theorem skipPasswordCheck_eq_true (p : Paste) (ua : FullUser) :
    skipPasswordCheck p (some ua) = true ↔
      (ua.user.username = p.metadata.owner ∨
        strCodes "ManagePastes" ∈ ua.level.permissions) := by
  unfold skipPasswordCheck
  by_cases h1 : ua.user.username = p.metadata.owner
  · simp [h1]
  · by_cases h2 : strCodes "ManagePastes" ∈ ua.level.permissions
    · simp [h1, h2]
    · simp [h1, h2]

end Pastemd

namespace Pastemd

/-- C1: on both edit operations, a requester who is the owner or holds
`"ManagePastes"` bypasses the stored-password comparison entirely (the call
never returns `PasswordIncorrect`, however wrong the supplied password);
with no identity, or an identity meeting neither condition, the call
returns `PasswordIncorrect` exactly when the supplied password's hash
differs from the stored hash. -/
theorem claim_C1 (hash : List Nat → List Nat) (S S' : State) (url : List Nat)
    (p : Paste) (pw newContent newUrl newPw : List Nat) (md : PasteMetadata)
    (ua : FullUser) (now : Nat)
    (hn : normalizeUrl url = some url)
    (hget : get_paste_by_url S url = some (.ok p, S')) :
    ((ua.user.username = p.metadata.owner ∨
        strCodes "ManagePastes" ∈ ua.level.permissions) →
      (∀ r T, edit_paste_by_url hash S url pw newContent newUrl newPw (some ua) now
          = some (r, T) → r ≠ .error .PasswordIncorrect) ∧
      (∀ r T, edit_paste_metadata_by_url hash S url pw md (some ua)
          = some (r, T) → r ≠ .error .PasswordIncorrect)) ∧
    ((ua.user.username ≠ p.metadata.owner ∧
        strCodes "ManagePastes" ∉ ua.level.permissions) →
      ((edit_paste_by_url hash S url pw newContent newUrl newPw (some ua) now
          = some (.error .PasswordIncorrect, S')) ↔ hash pw ≠ p.password) ∧
      ((edit_paste_metadata_by_url hash S url pw md (some ua)
          = some (.error .PasswordIncorrect, S')) ↔ hash pw ≠ p.password)) ∧
    ((edit_paste_by_url hash S url pw newContent newUrl newPw none now
        = some (.error .PasswordIncorrect, S')) ↔ hash pw ≠ p.password) ∧
    ((edit_paste_metadata_by_url hash S url pw md none
        = some (.error .PasswordIncorrect, S')) ↔ hash pw ≠ p.password) := by
  refine ⟨?_, ?_, ?_, ?_⟩
  · intro hcond
    have hskip : skipPasswordCheck p (some ua) = true :=
      (skipPasswordCheck_eq_true p ua).mpr hcond
    exact ⟨edit_skip_no_pw hash S url pw newContent newUrl newPw p S' (some ua) now
        hn hget hskip,
      edit_metadata_skip_no_pw hash S url pw md p S' (some ua) hn hget hskip⟩
  · intro hcond
    have hskip : skipPasswordCheck p (some ua) = false := by
      cases hsk : skipPasswordCheck p (some ua) with
      | false => rfl
      | true =>
        rcases (skipPasswordCheck_eq_true p ua).mp hsk with h | h
        · exact absurd h hcond.1
        · exact absurd h hcond.2
    exact ⟨edit_pw_iff hash S S' url pw newContent newUrl newPw p (some ua) now
        hn hget hskip,
      edit_metadata_pw_iff hash S S' url pw md p (some ua) hn hget hskip⟩
  · exact edit_pw_iff hash S S' url pw newContent newUrl newPw p none now hn hget rfl
  · exact edit_metadata_pw_iff hash S S' url pw md p none hn hget rfl

/-- Witness for C1 at a concrete instance: owner `alice` edits her paste
with a wrong password and is not rejected; an anonymous edit with the same
wrong password is rejected precisely because the hash differs. -/
theorem claim_C1_witness :
    (∀ r T, edit_paste_by_url wHash wStateCached (strCodes "abc") (strCodes "wrong")
        (strCodes "c2") [] [] (some wAlice) 9 = some (r, T) →
        r ≠ .error .PasswordIncorrect) ∧
    ((edit_paste_by_url wHash wStateCached (strCodes "abc") (strCodes "wrong")
        (strCodes "c2") [] [] none 9
        = some (.error .PasswordIncorrect, wStateCached)) ↔
      wHash (strCodes "wrong") ≠ wOwnerPaste.password) := by
  have h := claim_C1 wHash wStateCached wStateCached (strCodes "abc") wOwnerPaste
    (strCodes "wrong") (strCodes "c2") [] [] PasteMetadata.default wAlice 9 rfl rfl
  exact ⟨(h.1 (Or.inl rfl)).1, h.2.2.1⟩

end Pastemd

namespace Pastemd

/-- C4: in `AuthenticatedOnce` mode, a first view by an identity inserts
the durable `(url, username)` row and sets the cache counter; a repeat view
by the same identity is a complete no-op returning `Ok`; a first view by a
second identity adds its row and bumps the counter to 2. -/
theorem claim_C4 (opts : ServerOptions) (S : State) (url u1 u2 : List Nat)
    (perms1 perms2 : List (List Nat))
    (hmode : opts.view_mode = ViewMode.AuthenticatedOnce)
    (hn : normalizeUrl url = some url)
    (hviews : ∀ v ∈ S.views, v.url ≠ url)
    (hcache : cacheGet S.cache (seViewsKey url) = none)
    (hne : u1 ≠ u2) :
    incr_views_by_url opts S url
        (some { user := { username := u1 }, level := { permissions := perms1 } })
      = some (.ok (),
        { S with views := S.views ++ [{ url := url, username := u1 }],
                 cache := cacheSet S.cache (seViewsKey url) (.countV 1) }) ∧
    get_views_by_url opts
        { S with views := S.views ++ [{ url := url, username := u1 }],
                 cache := cacheSet S.cache (seViewsKey url) (.countV 1) } url
      = some (1,
        { S with views := S.views ++ [{ url := url, username := u1 }],
                 cache := cacheSet S.cache (seViewsKey url) (.countV 1) }) ∧
    incr_views_by_url opts
        { S with views := S.views ++ [{ url := url, username := u1 }],
                 cache := cacheSet S.cache (seViewsKey url) (.countV 1) } url
        (some { user := { username := u1 }, level := { permissions := perms1 } })
      = some (.ok (),
        { S with views := S.views ++ [{ url := url, username := u1 }],
                 cache := cacheSet S.cache (seViewsKey url) (.countV 1) }) ∧
    incr_views_by_url opts
        { S with views := S.views ++ [{ url := url, username := u1 }],
                 cache := cacheSet S.cache (seViewsKey url) (.countV 1) } url
        (some { user := { username := u2 }, level := { permissions := perms2 } })
      = some (.error .Other,
        { S with views := (S.views ++ [{ url := url, username := u1 }])
                   ++ [{ url := url, username := u2 }],
                 cache := cacheSet (cacheSet S.cache (seViewsKey url) (.countV 1))
                   (seViewsKey url) (.countV 2) }) ∧
    get_views_by_url opts
        { S with views := (S.views ++ [{ url := url, username := u1 }])
                   ++ [{ url := url, username := u2 }],
                 cache := cacheSet (cacheSet S.cache (seViewsKey url) (.countV 1))
                   (seViewsKey url) (.countV 2) } url
      = some (2,
        { S with views := (S.views ++ [{ url := url, username := u1 }])
                   ++ [{ url := url, username := u2 }],
                 cache := cacheSet (cacheSet S.cache (seViewsKey url) (.countV 1))
                   (seViewsKey url) (.countV 2) }) := by
  have hnone1 : S.views.find? (fun v => decide (v.url = url ∧ v.username = u1)) = none := by
    rw [List.find?_eq_none]
    intro v hv
    simp only [decide_eq_true_eq]
    rintro ⟨h1, -⟩
    exact hviews v hv h1
  have hnone2 : S.views.find? (fun v => decide (v.url = url ∧ v.username = u2)) = none := by
    rw [List.find?_eq_none]
    intro v hv
    simp only [decide_eq_true_eq]
    rintro ⟨h1, -⟩
    exact hviews v hv h1
  have hhv1 : user_has_viewed_paste opts S url u1 = false := by
    unfold user_has_viewed_paste
    rw [if_pos hmode, hnone1]
    rfl
  have hhv2 : user_has_viewed_paste opts
      { S with views := S.views ++ [{ url := url, username := u1 }],
               cache := cacheSet S.cache (seViewsKey url) (.countV 1) } url u1 = true := by
    unfold user_has_viewed_paste
    rw [if_pos hmode]
    simp only [List.find?_append, hnone1, Option.none_or]
    rw [List.find?_cons_of_pos _ (by simp)]
    rfl
  have hhv3 : user_has_viewed_paste opts
      { S with views := S.views ++ [{ url := url, username := u1 }],
               cache := cacheSet S.cache (seViewsKey url) (.countV 1) } url u2 = false := by
    unfold user_has_viewed_paste
    rw [if_pos hmode]
    simp only [List.find?_append, hnone2, Option.none_or]
    rw [List.find?_cons_of_neg _ (by simp [hne])]
    rfl
  refine ⟨?_, ?_, ?_, ?_, ?_⟩
  · unfold incr_views_by_url
    rw [hn]
    simp only
    rw [if_pos hmode]
    simp only [hhv1]
    rw [if_neg (by simp)]
    unfold incrViewsCacheStep cacheIncr
    rw [show cacheGet (State.cache
        { S with views := S.views ++ [{ url := url, username := u1 }] })
        (seViewsKey url) = none from hcache]
    rfl
  · unfold get_views_by_url
    rw [hn]
    simp only
    rw [show cacheGet (cacheSet S.cache (seViewsKey url) (.countV 1)) (seViewsKey url)
        = some (.countV 1) from cacheGet_set_self ..]
    norm_num
  · unfold incr_views_by_url
    rw [hn]
    simp only
    rw [if_pos hmode]
    simp only [hhv2]
    simp
  · unfold incr_views_by_url
    rw [hn]
    simp only
    rw [if_pos hmode]
    simp only [hhv3]
    rw [if_neg (by simp)]
    unfold incrViewsCacheStep cacheIncr
    rw [show cacheGet (cacheSet S.cache (seViewsKey url) (.countV 1)) (seViewsKey url)
        = some (.countV 1) from cacheGet_set_self ..]
    rfl
  · unfold get_views_by_url
    rw [hn]
    simp only
    rw [show cacheGet (cacheSet (cacheSet S.cache (seViewsKey url) (.countV 1))
        (seViewsKey url) (.countV 2)) (seViewsKey url)
        = some (.countV 2) from cacheGet_set_self ..]
    norm_num

end Pastemd

namespace Pastemd

/-- One `OpenMultiple` increment from a state whose counter key holds `k`:
the counter becomes `k+1` (the reported `previous-existed` flag makes the
call return `Other`, but the increment takes effect) and the durable tables
are untouched. -/
theorem incr_open_step (opts : ServerOptions) (url : List Nat)
    (usr : Option FullUser) (T : State) (k : Nat)
    (hmode : opts.view_mode = ViewMode.OpenMultiple)
    (hn : normalizeUrl url = some url)
    (hk : cacheGet T.cache (seViewsKey url) = some (.countV k)) :
    incr_views_by_url opts T url usr = some (.error .Other,
      { T with cache := cacheSet T.cache (seViewsKey url) (.countV (k + 1)) }) := by
  unfold incr_views_by_url
  rw [hn]
  simp only
  rw [if_neg (by rw [hmode]; simp)]
  unfold incrViewsCacheStep cacheIncr
  rw [hk]
  rfl

/-- Iterating `OpenMultiple` increments adds `N` to the cache counter and
leaves the durable tables untouched. -/
theorem iterIncr_open_count (opts : ServerOptions) (url : List Nat)
    (usr : Option FullUser)
    (hmode : opts.view_mode = ViewMode.OpenMultiple)
    (hn : normalizeUrl url = some url) :
    ∀ (N : Nat) (T : State) (k : Nat),
      cacheGet T.cache (seViewsKey url) = some (.countV k) →
      ∃ T', iterIncr opts url usr N T = some T' ∧
        cacheGet T'.cache (seViewsKey url) = some (.countV (k + N)) ∧
        T'.pastes = T.pastes ∧ T'.views = T.views ∧ T'.docs = T.docs := by
  intro N
  induction N with
  | zero => exact fun T k hk => ⟨T, rfl, by simpa using hk, rfl, rfl, rfl⟩
  | succ n ih =>
    intro T k hk
    obtain ⟨T', h1, h2, h3, h4, h5⟩ :=
      ih { T with cache := cacheSet T.cache (seViewsKey url) (.countV (k + 1)) }
        (k + 1) (cacheGet_set_self ..)
    refine ⟨T', ?_, ?_, h3, h4, h5⟩
    · unfold iterIncr
      rw [incr_open_step opts url usr T k hmode hn hk]
      exact h1
    · rw [h2]
      have : k + 1 + n = k + (n + 1) := by omega
      rw [this]

/-- C5 (counterexample): after `i32::MAX + 1 = 2147483648` open-mode
increments the cache counter holds 2147483648, and `get_views_by_url`
panics on `c.parse::<i32>().unwrap()` instead of returning `N`. -/
theorem claim_C5_counterexample :
    ∃ SN, iterIncr optsOpen (strCodes "abc") none 2147483648 wEmpty = some SN ∧
      get_views_by_url optsOpen SN (strCodes "abc") = none := by
  obtain ⟨T', h1, h2, h3, h4, h5⟩ := iterIncr_open_count optsOpen (strCodes "abc")
    none rfl rfl 2147483647
    { wEmpty with cache := cacheSet wEmpty.cache (seViewsKey (strCodes "abc")) (.countV 1) }
    1 (cacheGet_set_self ..)
  refine ⟨T', ?_, ?_⟩
  · have hstep : incr_views_by_url optsOpen wEmpty (strCodes "abc") none
        = some (.ok (), { wEmpty with
            cache := cacheSet wEmpty.cache (seViewsKey (strCodes "abc")) (.countV 1) }) :=
      rfl
    rw [(by norm_num : (2147483648 : Nat) = 2147483647 + 1)]
    unfold iterIncr
    rw [hstep]
    exact h1
  · have hn : normalizeUrl (strCodes "abc") = some (strCodes "abc") := rfl
    unfold get_views_by_url
    rw [hn]
    simp only
    rw [h2]
    simp only
    rw [if_neg (by norm_num)]

/-- C5 (amended): in `OpenMultiple` mode, for every `N` up to
`i32::MAX = 2147483647`, `N` sequential increments starting from a state
without the counter key leave the counter at exactly `N`, which
`get_views_by_url` then reports; the durable tables never change — the
counter lives only in the cache.  Past that bound the counter still
increments but reading it panics on the `i32` parse
(`claim_C5_counterexample`). -/
theorem claim_C5 (opts : ServerOptions) (S : State) (url : List Nat)
    (usr : Option FullUser) (N : Nat)
    (hmode : opts.view_mode = ViewMode.OpenMultiple)
    (hn : normalizeUrl url = some url)
    (hcache : cacheGet S.cache (seViewsKey url) = none)
    (hN : N ≤ 2147483647) :
    ∃ SN, iterIncr opts url usr N S = some SN ∧
      get_views_by_url opts SN url = some ((N : Int), SN) ∧
      SN.pastes = S.pastes ∧ SN.views = S.views ∧ SN.docs = S.docs := by
  cases N with
  | zero =>
    refine ⟨S, rfl, ?_, rfl, rfl, rfl⟩
    unfold get_views_by_url
    rw [hn]
    simp only
    rw [hcache]
    simp only
    rw [if_neg (by rw [hmode]; simp)]
    norm_num
  | succ n =>
    have hstep : incr_views_by_url opts S url usr = some (.ok (),
        { S with cache := cacheSet S.cache (seViewsKey url) (.countV 1) }) := by
      unfold incr_views_by_url
      rw [hn]
      simp only
      rw [if_neg (by rw [hmode]; simp)]
      unfold incrViewsCacheStep cacheIncr
      rw [hcache]
      rfl
    obtain ⟨T', h1, h2, h3, h4, h5⟩ := iterIncr_open_count opts url usr hmode hn n
      { S with cache := cacheSet S.cache (seViewsKey url) (.countV 1) } 1
      (cacheGet_set_self ..)
    refine ⟨T', ?_, ?_, h3, h4, h5⟩
    · unfold iterIncr
      rw [hstep]
      exact h1
    · unfold get_views_by_url
      rw [hn]
      simp only
      rw [show (1 : Nat) + n = n + 1 from by omega] at h2
      rw [h2]
      simp only
      rw [if_pos hN]

/-- Witness for C5: three open-mode increments on a cold cache yield a view
count of three without any durable rows. -/
theorem claim_C5_witness :
    ∃ SN, iterIncr optsOpen (strCodes "abc") none 3 wEmpty = some SN ∧
      get_views_by_url optsOpen SN (strCodes "abc") = some ((3 : Int), SN) ∧
      SN.pastes = wEmpty.pastes ∧ SN.views = wEmpty.views ∧ SN.docs = wEmpty.docs := by
  have h := claim_C5 optsOpen wEmpty (strCodes "abc") none 3 rfl rfl rfl (by norm_num)
  obtain ⟨SN, h1, h2, h3, h4, h5⟩ := h
  exact ⟨SN, h1, by exact_mod_cast h2, h3, h4, h5⟩

end Pastemd

namespace Pastemd

/-- Witness for C3 at a concrete instance. -/
theorem claim_C3_witness :
    delete_paste_by_url wHash optsOpen wStateCached (strCodes "abc") (strCodes "wrong")
      = some (.error .PasswordIncorrect, wStateCached) ∧
    get_paste_by_url wStateCached (strCodes "abc")
      = some (.ok wOwnerPaste, wStateCached) := by
  have h := claim_C3 wHash optsOpen wStateCached wStateCached (strCodes "abc")
    (strCodes "wrong") wOwnerPaste rfl rfl (by decide)
  exact ⟨h.1, h.2.2⟩

/-- Witness for C4 at a concrete instance (`alice` and `bob` viewing a cold
slug). -/
theorem claim_C4_witness :
    ∃ S1 S2,
      incr_views_by_url optsAuth wEmpty (strCodes "abc") (some wAlice)
        = some (.ok (), S1) ∧
      get_views_by_url optsAuth S1 (strCodes "abc") = some (1, S1) ∧
      incr_views_by_url optsAuth S1 (strCodes "abc") (some wAlice)
        = some (.ok (), S1) ∧
      ∃ r, incr_views_by_url optsAuth S1 (strCodes "abc") (some wBob)
          = some (r, S2) ∧
        get_views_by_url optsAuth S2 (strCodes "abc") = some (2, S2) := by
  have h := claim_C4 optsAuth wEmpty (strCodes "abc") (strCodes "alice")
    (strCodes "bob") [] [] rfl rfl (by intro v hv; simp [wEmpty] at hv) rfl (by decide)
  exact ⟨_, _, h.1, h.2.1, h.2.2.1, _, h.2.2.2.1, h.2.2.2.2⟩

/-- C2 (counterexample): creating with an empty password returns the
generated plaintext as the first pair component, but the `password` field
of the returned record holds the *hash* of that plaintext, not the
plaintext the claim says it holds. -/
theorem claim_C2_counterexample :
    create_paste wHash wEmpty (strCodes "abc") (strCodes "hello") []
        (strCodes "uuuuuuuuuuuu") (strCodes "r4nd0mPassword") (strCodes "id1") 5 5
      = some (.ok (strCodes "r4nd0mPass", c2paste),
          { wEmpty with pastes := [c2paste] }) ∧
    c2paste.password ≠ strCodes "r4nd0mPass" := by
  exact ⟨rfl, by decide⟩

/-- C2 (amended): with an empty password, `create_paste` generates the
password as the first 10 characters of a fresh `random_id` (so 10
alphanumeric characters), returns that plaintext as the first component of
the pair, and both the returned record and the row persisted to the store
carry `hash(plaintext)` in their `password` field. -/
theorem claim_C2_amended (hash : List Nat → List Nat) (S S' : State)
    (url content ridUrl ridPw ridId : List Nat) (now1 now2 : Nat)
    (hn : normalizeUrl url = some url)
    (hget : get_paste_by_url S url = some (.error .NotFound, S'))
    (hurl : url ≠ [])
    (hulen : ¬ (250 < utf8Len url ∨ utf8Len url < 3))
    (hclen : ¬ (200000 < utf8Len content ∨ utf8Len content < 1))
    (hre : slugRegexOk url = true)
    (hridlen : 10 ≤ ridPw.length)
    (halnum : ∀ c ∈ ridPw,
      (48 ≤ c ∧ c ≤ 57) ∨ (65 ≤ c ∧ c ≤ 90) ∨ (97 ≤ c ∧ c ≤ 122)) :
    create_paste hash S url content [] ridUrl ridPw ridId now1 now2
      = some (.ok (ridPw.take 10,
            createdPaste hash url content (ridPw.take 10) ridId now1 now2),
          { S' with pastes := S'.pastes ++
              [createdPaste hash url content (ridPw.take 10) ridId now1 now2] }) ∧
    (ridPw.take 10).length = 10 ∧
    (∀ c ∈ ridPw.take 10,
      (48 ≤ c ∧ c ≤ 57) ∨ (65 ≤ c ∧ c ≤ 90) ∨ (97 ≤ c ∧ c ≤ 122)) ∧
    (createdPaste hash url content (ridPw.take 10) ridId now1 now2).password
      = hash (ridPw.take 10) := by
  refine ⟨?_, ?_, ?_, rfl⟩
  · unfold create_paste
    rw [hn]
    simp only
    rw [hget]
    simp only
    rw [if_neg hurl, if_neg hulen, if_neg hclen, if_neg (by simp [hre])]
    simp [createdPaste]
  · rw [List.length_take]
    exact Nat.min_eq_left hridlen
  · exact fun c hc => halnum c (List.mem_of_mem_take hc)

/-- Witness for C2 (amended) at the concrete instance of the
counterexample. -/
theorem claim_C2_witness :
    create_paste wHash wEmpty (strCodes "abc") (strCodes "hello") []
        (strCodes "uuuuuuuuuuuu") (strCodes "r4nd0mPassword") (strCodes "id1") 5 5
      = some (.ok ((strCodes "r4nd0mPassword").take 10,
            createdPaste wHash (strCodes "abc") (strCodes "hello")
              ((strCodes "r4nd0mPassword").take 10) (strCodes "id1") 5 5),
          { wEmpty with pastes := wEmpty.pastes ++
              [createdPaste wHash (strCodes "abc") (strCodes "hello")
                ((strCodes "r4nd0mPassword").take 10) (strCodes "id1") 5 5] }) ∧
    ((strCodes "r4nd0mPassword").take 10).length = 10 ∧
    (createdPaste wHash (strCodes "abc") (strCodes "hello")
        ((strCodes "r4nd0mPassword").take 10) (strCodes "id1") 5 5).password
      = wHash ((strCodes "r4nd0mPassword").take 10) := by
  have h := claim_C2_amended wHash wEmpty wEmpty (strCodes "abc") (strCodes "hello")
    (strCodes "uuuuuuuuuuuu") (strCodes "r4nd0mPassword") (strCodes "id1") 5 5
    rfl rfl (by decide) (by decide) (by decide) rfl (by decide) (by decide)
  exact ⟨h.1, h.2.1, h.2.2.2⟩

/-- C6: at a stored document with a cold cache, `pull` panics on the store
hit (it reads the nonexistent `date_published` column), and the cache key it
checks (`se_document:{id}`) differs from the key the document operations
populate and invalidate (`se_document:{namespace}:{id}`), so a repeated read
could never be served from the cache it populates. -/
theorem claim_C6 :
    pull optsDocs c6state (strCodes "doc1") (strCodes "ns1") = none ∧
    seDocLookupKey (strCodes "doc1")
      ≠ seDocStoreKey (strCodes "ns1") (strCodes "doc1") := by
  exact ⟨rfl, by decide⟩

/-- C7: slug normalization is idempotent — whenever it succeeds (the
encoder's `u32` guards are the only failure source), applying it to its own
output returns that output unchanged.  The length side condition mirrors the
encoder's `u32` length counter on the second pass. -/
theorem claim_C7 (s y : List Nat) (h : normalizeUrl s = some y)
    (hlen : y.length ≤ U32MAX) : normalizeUrl y = some y := by
  obtain ⟨e, he, hy⟩ := Option.map_eq_some'.mp h
  have hasciiE := punycodeEncode_ascii s e he
  have hasciiY : ∀ c ∈ y, c ≤ 127 := by
    intro c hc
    subst hy
    exact toLowerAscii_ascii e hasciiE c (stripTrailingDash_mem _ c hc)
  have hlower : toLowerAscii y = y := by
    subst hy
    rw [toLowerAscii_strip, toLowerAscii_idem]
  rw [normalizeUrl, punycodeEncode_of_ascii y hasciiY hlen]
  rcases List.eq_nil_or_concat y with hnil | ⟨l2, a, rfl⟩
  · subst hnil
    simp [stripTrailingDash, toLowerAscii]
  · simp only [List.concat_eq_append] at hy hasciiY hlower hlen ⊢
    have hpos : 0 < (l2 ++ [a]).length := by simp
    rw [if_pos hpos]
    simp only [Option.map_some', Option.some.injEq]
    have : toLowerAscii ((l2 ++ [a]) ++ [45]) = (l2 ++ [a]) ++ [45] := by
      have h45 : toLowerAscii [45] = [45] := by simp [toLowerAscii]
      calc toLowerAscii ((l2 ++ [a]) ++ [45])
          = toLowerAscii (l2 ++ [a]) ++ toLowerAscii [45] := by
            simp [toLowerAscii]
        _ = (l2 ++ [a]) ++ [45] := by rw [hlower, h45]
    rw [this, stripTrailingDash_append45]

/-- Witness for C7: a concrete slug and its normalized fixed point. -/
theorem claim_C7_witness :
    normalizeUrl (strCodes "aBc") = some (strCodes "abc") ∧
    normalizeUrl (strCodes "abc") = some (strCodes "abc") :=
  ⟨rfl, claim_C7 (strCodes "aBc") (strCodes "abc") rfl (by decide)⟩

/-- C8 (counterexample): the slug `"abc\n$$$"` has a line (`$$$`) made of
disallowed characters, yet `create_paste` accepts it, because
`regex.captures` with multi-line anchors succeeds as soon as *one* line
(`abc`) matches — the claim's every-line reading would reject it with
`ValueError`. -/
theorem claim_C8_counterexample :
    create_paste wHash wEmpty (strCodes "abc\n$$$") (strCodes "hello")
        (strCodes "pw") [] [] (strCodes "id1") 5 5
      = some (.ok (strCodes "pw", c8paste), { wEmpty with pastes := [c8paste] }) ∧
    (strCodes "abc\n$$$").splitOn 10 = [strCodes "abc", strCodes "$$$"] ∧
    ¬ (∀ c ∈ strCodes "$$$", slugChar c = true) := by
  exact ⟨rfl, by decide, by decide⟩

/-- C8 (amended): the character-set validation accepts a slug iff *at
least one* line of it is nonempty and consists entirely of allowed
characters; it returns `ValueError` exactly when *no* line matches. -/
theorem claim_C8_amended (hash : List Nat → List Nat) (S S' : State)
    (url content pw ridUrl ridPw ridId : List Nat) (now1 now2 : Nat)
    (hn : normalizeUrl url = some url)
    (hget : get_paste_by_url S url = some (.error .NotFound, S'))
    (hurl : url ≠ []) (hpw : pw ≠ [])
    (hulen : ¬ (250 < utf8Len url ∨ utf8Len url < 3))
    (hclen : ¬ (200000 < utf8Len content ∨ utf8Len content < 1)) :
    (slugRegexOk url = true ↔
      ∃ line ∈ url.splitOn 10, line ≠ [] ∧ ∀ c ∈ line, slugChar c = true) ∧
    (slugRegexOk url = false →
      create_paste hash S url content pw ridUrl ridPw ridId now1 now2
        = some (.error .ValueError, S')) ∧
    (slugRegexOk url = true →
      create_paste hash S url content pw ridUrl ridPw ridId now1 now2
        = some (.ok (pw, createdPaste hash url content pw ridId now1 now2),
            { S' with pastes := S'.pastes ++
                [createdPaste hash url content pw ridId now1 now2] })) := by
  refine ⟨?_, ?_, ?_⟩
  · simp [slugRegexOk, List.any_eq_true, Bool.and_eq_true, List.all_eq_true,
      List.isEmpty_eq_false]
  · intro hre
    unfold create_paste
    rw [hn]
    simp only
    rw [hget]
    simp only
    rw [if_neg hurl, if_neg hpw, if_neg hulen, if_neg hclen,
      if_pos (by simp [hre])]
  · intro hre
    unfold create_paste
    rw [hn]
    simp only
    rw [hget]
    simp only
    rw [if_neg hurl, if_neg hpw, if_neg hulen, if_neg hclen,
      if_neg (by simp [hre])]
    rfl

/-- Witness for C8 (amended): the counterexample slug is accepted because
its first line matches. -/
theorem claim_C8_witness :
    slugRegexOk (strCodes "abc\n$$$") = true ∧
    create_paste wHash wEmpty (strCodes "abc\n$$$") (strCodes "hello")
        (strCodes "pw") [] [] (strCodes "id1") 5 5
      = some (.ok (strCodes "pw",
            createdPaste wHash (strCodes "abc\n$$$") (strCodes "hello")
              (strCodes "pw") (strCodes "id1") 5 5),
          { wEmpty with pastes := wEmpty.pastes ++
              [createdPaste wHash (strCodes "abc\n$$$") (strCodes "hello")
                (strCodes "pw") (strCodes "id1") 5 5] }) := by
  have h := claim_C8_amended wHash wEmpty wEmpty (strCodes "abc\n$$$")
    (strCodes "hello") (strCodes "pw") [] [] (strCodes "id1") 5 5
    rfl rfl (by decide) (by decide) (by decide) (by decide)
  exact ⟨rfl, h.2.2 rfl⟩

/-- C9 (counterexample): the in-tree HTTP layer maps `PasswordIncorrect`
to 500 (`INTERNAL_SERVER_ERROR`), not 401, and `AlreadyExists` to 500, not
400 (and its error enum has no `ValueError` variant at all). -/
theorem claim_C9_counterexample :
    (OldModel.PasteError.into_response .PasswordIncorrect).1 ≠ 401 ∧
    (OldModel.PasteError.into_response .AlreadyExists).1 ≠ 400 := by decide

/-- C9 (amended): the in-tree `IntoResponse` impl maps `PasswordIncorrect`,
`AlreadyExists` and `Other` to 500 and `NotFound` to 404. -/
theorem claim_C9 :
    (OldModel.PasteError.into_response .PasswordIncorrect).1 = 500 ∧
    (OldModel.PasteError.into_response .AlreadyExists).1 = 500 ∧
    (OldModel.PasteError.into_response .NotFound).1 = 404 ∧
    (OldModel.PasteError.into_response .Other).1 = 500 := by decide

/-- C10: with the document store disabled, every document operation
returns `Other` immediately and leaves the state untouched. -/
theorem claim_C10 (opts : ServerOptions) (S : State)
    (id ns content metadata newContent rid : List Nat) (now : Nat)
    (hds : opts.document_store = false) :
    pull opts S id ns = some (.error .Other, S) ∧
    push opts S ns content metadata rid now = some (.error .Other, S) ∧
    drop opts S id ns = some (.error .Other, S) ∧
    update opts S id ns newContent = some (.error .Other, S) ∧
    update_metadata opts S id ns metadata = some (.error .Other, S) := by
  refine ⟨?_, ?_, ?_, ?_, ?_⟩ <;>
    simp [pull, push, drop, update, update_metadata, hds]

/-- Witness for C10 at a concrete instance. -/
theorem claim_C10_witness :
    pull optsAuth wEmpty (strCodes "d") (strCodes "n")
      = some (.error .Other, wEmpty) ∧
    push optsAuth wEmpty (strCodes "n") (strCodes "c") (strCodes "m")
        (strCodes "r") 5 = some (.error .Other, wEmpty) ∧
    drop optsAuth wEmpty (strCodes "d") (strCodes "n")
      = some (.error .Other, wEmpty) ∧
    update optsAuth wEmpty (strCodes "d") (strCodes "n") (strCodes "c")
      = some (.error .Other, wEmpty) ∧
    update_metadata optsAuth wEmpty (strCodes "d") (strCodes "n") (strCodes "m")
      = some (.error .Other, wEmpty) :=
  claim_C10 optsAuth wEmpty _ _ _ _ _ _ _ rfl

end Pastemd
